import Mathlib

/-!
Verification development for the crypto-swap-ui repository.

The repository is a browser token price converter built from three parts:
a performance monitor (`src/utils/performance.ts`), a TTL response cache
plus token fetchers (the token service file), and a conversion view
(`App`, shown in the README). This file gives a shallow embedding of
those parts and proves the specified properties about them.

Modelling conventions:
* JavaScript numbers are modelled as exact rationals; where the code can
  produce `NaN` or `Infinity` (the conversion arithmetic) we use the
  `JSNum` type, an extended rational with the IEEE special values.
* `Map` objects are modelled as functions `String → Option _` (the code
  never iterates over a map, so insertion order is unobservable).
* Asynchronous external calls are modelled by an oracle giving the
  outcome of each call; `Promise.all` over the fixed catalog is
  sequentialised (the environment is a single-threaded event loop and
  the claims do not depend on interleaving).
* Clock reads (`Date.now()`) become an explicit `now : Int` parameter.
-/

namespace CryptoSwap

/-- Time-to-live of a cache entry: 5 minutes in milliseconds
(`private readonly TTL = 5 * 60 * 1000`). -/
def TTL : Int := 5 * 60 * 1000

/-! ## Performance monitor (`src/utils/performance.ts`) -/

/-- State of `PerformanceMonitor`: the per-label metric lists and the
cache hit/miss counters.  The `metrics` map is modelled as a total
function defaulting to `[]` (the code treats an absent label and an
empty list identically). -/
structure PerfMonitor where
  metrics : String → List ℚ
  cacheHits : Nat
  cacheMisses : Nat

/-- The monitor as constructed: empty metrics, zero counters. -/
def PerfMonitor.init : PerfMonitor :=
  { metrics := fun _ => [], cacheHits := 0, cacheMisses := 0 }

/-- Model of `recordMetric(label, value)`: push `value` onto the label's list and,
if the list then exceeds 100 entries, shift off the oldest one. -/
def PerfMonitor.recordMetric (m : PerfMonitor) (label : String) (value : ℚ) :
    PerfMonitor :=
  let values := m.metrics label ++ [value]
  let values := if values.length > 100 then values.tail else values
  { m with metrics := fun l => if l = label then values else m.metrics l }

/-- Model of `recordCacheHit()`: increment the hit counter. -/
def PerfMonitor.recordCacheHit (m : PerfMonitor) : PerfMonitor :=
  { m with cacheHits := m.cacheHits + 1 }

/-- Model of `recordCacheMiss()`: increment the miss counter. -/
def PerfMonitor.recordCacheMiss (m : PerfMonitor) : PerfMonitor :=
  { m with cacheMisses := m.cacheMisses + 1 }

/-- Model of `getCacheHitRate()`: `hits / (hits + misses) * 100`, or 0 when no
access has been recorded. -/
def PerfMonitor.getCacheHitRate (m : PerfMonitor) : ℚ :=
  let total := m.cacheHits + m.cacheMisses
  if total = 0 then 0 else ((m.cacheHits : ℚ) / (total : ℚ)) * 100

/-! ## Response cache (token service file) -/

/-- Model of `CacheEntry<T>`: a stored value together with its write timestamp. -/
structure CacheEntry (α : Type) where
  data : α
  timestamp : Int
deriving Repr, DecidableEq

/-- Model of `ResponseCache`: the private `Map<string, CacheEntry<unknown>>`,
modelled as a function from keys to optional entries. -/
structure ResponseCache (α : Type) where
  cache : String → Option (CacheEntry α)

/-- The cache as constructed: empty. -/
def ResponseCache.empty {α : Type} : ResponseCache α := ⟨fun _ => none⟩

/-- Model of `get(key)`: return the entry's data if present and not expired,
recording a hit; on an absent key record a miss; on an expired entry
delete it and record a miss.  Returns the value together with the
updated cache and monitor. -/
def ResponseCache.get {α : Type} (c : ResponseCache α) (m : PerfMonitor)
    (now : Int) (key : String) :
    Option α × ResponseCache α × PerfMonitor :=
  match c.cache key with
  | none => (none, c, m.recordCacheMiss)
  | some entry =>
      if now - entry.timestamp > TTL then
        (none, ⟨fun k => if k = key then none else c.cache k⟩, m.recordCacheMiss)
      else
        (some entry.data, c, m.recordCacheHit)

/-- Model of `set(key, data)`: store the value with the current timestamp,
overwriting any prior entry under the key. -/
def ResponseCache.set {α : Type} (c : ResponseCache α) (now : Int)
    (key : String) (data : α) : ResponseCache α :=
  ⟨fun k => if k = key then some ⟨data, now⟩ else c.cache k⟩

/-- Model of `clear()`: remove all entries. -/
def ResponseCache.clear {α : Type} (_ : ResponseCache α) : ResponseCache α :=
  ResponseCache.empty

/-- Whether the cache holds a valid (present and unexpired) entry under
the key: exactly the condition under which `get` returns a value. -/
def validCached {α : Type} (c : ResponseCache α) (now : Int) (key : String) : Bool :=
  match c.cache key with
  | none => false
  | some entry => decide (now - entry.timestamp ≤ TTL)

/-! ## Token data model and catalog -/

/-- The exported `Token` interface.  The optional `address` field is
`none` when absent (or, in JavaScript, falsy). -/
structure Token where
  symbol : String
  name : String
  price : ℚ
  icon : String
  chainId : String
  address : Option String
deriving Repr, DecidableEq

/-- One entry of the static `SUPPORTED_TOKENS` catalog. -/
structure CatalogEntry where
  symbol : String
  name : String
  chainId : String
  icon : String
deriving Repr, DecidableEq

/-- The static catalog `SUPPORTED_TOKENS` (four entries). -/
def SUPPORTED_TOKENS : List CatalogEntry :=
  [ ⟨"USDC", "USD Coin", "1", "💵"⟩,
    ⟨"USDT", "Tether USD", "137", "💵"⟩,
    ⟨"ETH", "Ethereum", "8453", "Ξ"⟩,
    ⟨"WBTC", "Wrapped Bitcoin", "1", "₿"⟩ ]

/-- Model of `getTokenIcon(symbol)`: the icon map lookup on the upper-cased
symbol, defaulting to the generic coin glyph. -/
def getTokenIcon (symbol : String) : String :=
  let u := symbol.toUpper
  if u = "BTC" then "₿"
  else if u = "WBTC" then "₿"
  else if u = "ETH" then "Ξ"
  else if u = "USDC" then "💵"
  else if u = "USDT" then "💵"
  else if u = "BNB" then "🟡"
  else if u = "SOL" then "◎"
  else "🪙"

/-- Model of `getDefaultPrice(symbol)`: the static fallback price table,
defaulting to 0. -/
def getDefaultPrice (symbol : String) : ℚ :=
  if symbol = "USDC" then 1
  else if symbol = "USDT" then 1
  else if symbol = "ETH" then 2500
  else if symbol = "WBTC" then 45000
  else 0

/-! ## External API oracle -/

/-- Outcome of one external API call: a returned value or a thrown
exception (a rejected promise). -/
inductive ApiOutcome (α : Type) where
  | success (value : α)
  | failure
deriving Repr, DecidableEq

/-- The metadata record returned by `getAssetErc20ByChainAndSymbol` as
used by the code: its `symbol`, `name` and `address` fields.  `none`
models an absent (or falsy) field. -/
structure RawToken where
  symbol : Option String
  name : Option String
  address : Option String
deriving Repr, DecidableEq

/-- Oracle fixing the outcome of every external call during a run:
`metadata chainId symbol` is the `getAssetErc20ByChainAndSymbol` call
(`success none` models a falsy response object), and
`priceLookup chainId address` is the `getAssetPriceInfo` call, returning
`priceInfo?.unitPrice` as an optional rational (`none` when the response
or its `unitPrice` is absent). -/
structure ApiOracle where
  metadata : String → String → ApiOutcome (Option RawToken)
  priceLookup : String → String → ApiOutcome (Option ℚ)

/-! ## Token info fetcher (`getTokenInfo`) -/

/-- The cache key `token-{chainId}-{symbol}`. -/
def cacheKeyOf (chainId symbol : String) : String :=
  "token-" ++ chainId ++ "-" ++ symbol

/-- Result of one `getTokenInfo` run: the returned value, the updated
cache and monitor, and the log of external API calls performed (as
cache-key-style descriptors), in order. -/
structure FetchResult where
  result : Option Token
  cache : ResponseCache Token
  monitor : PerfMonitor
  calls : List String

/-- Model of `getTokenInfo(chainId, symbol)`: check the cache under
`token-{chainId}-{symbol}`; on a hit return the cached token.  On a miss
call the metadata API; a thrown exception or an absent token yields
`none` with no cache write.  Otherwise fetch the price when the token
has an address, defaulting to 0 on a thrown exception or an absent
price; build the `Token`, write it to the cache, and return it. -/
def getTokenInfo (oracle : ApiOracle) (now : Int) (c : ResponseCache Token)
    (m : PerfMonitor) (chainId symbol : String) : FetchResult :=
  let cacheKey := cacheKeyOf chainId symbol
  let g := c.get m now cacheKey
  let c1 := g.2.1
  let m1 := g.2.2
  match g.1 with
  | some cached => ⟨some cached, c1, m1, []⟩
  | none =>
    match oracle.metadata chainId symbol with
    | .failure => ⟨none, c1, m1, ["metadata-" ++ chainId ++ "-" ++ symbol]⟩
    | .success none => ⟨none, c1, m1, ["metadata-" ++ chainId ++ "-" ++ symbol]⟩
    | .success (some tokenInfo) =>
      let priceAndCalls : ℚ × List String :=
        match tokenInfo.address with
        | none => (0, [])
        | some addr =>
          match oracle.priceLookup chainId addr with
          | .failure => (0, ["price-" ++ chainId ++ "-" ++ addr])
          | .success u => (u.getD 0, ["price-" ++ chainId ++ "-" ++ addr])
      let token : Token :=
        { symbol := tokenInfo.symbol.getD symbol
          name := tokenInfo.name.getD symbol
          price := priceAndCalls.1
          icon := getTokenIcon symbol
          chainId := chainId
          address := tokenInfo.address }
      ⟨some token, c1.set now cacheKey token, m1,
        ("metadata-" ++ chainId ++ "-" ++ symbol) :: priceAndCalls.2⟩

/-! ## Batch fetcher (`getAllTokensInfo`) -/

/-- The all-cached check loop of `getAllTokensInfo`: probe the cache for
each catalog token in order, collecting hits, and stop at the first
miss.  Returns the collected tokens, the `allCached` flag, and the
updated cache and monitor. -/
def checkAllCached (now : Int) :
    List CatalogEntry → ResponseCache Token → PerfMonitor →
    List Token × Bool × ResponseCache Token × PerfMonitor
  | [], c, m => ([], true, c, m)
  | t :: rest, c, m =>
    let g := c.get m now (cacheKeyOf t.chainId t.symbol)
    match g.1 with
    | some tok =>
      let r := checkAllCached now rest g.2.1 g.2.2
      (tok :: r.1, r.2)
    | none => ([], false, g.2.1, g.2.2)

/-- The fallback record substituted for catalog entry `t` when its fetch
produced no token. -/
def fallbackToken (t : CatalogEntry) : Token :=
  { symbol := t.symbol
    name := t.name
    price := getDefaultPrice t.symbol
    icon := t.icon
    chainId := t.chainId
    address := none }

/-- Result of one `getAllTokensInfo` run: the returned token list, the
per-catalog-position fetch results of the refetch round (empty when the
all-cached short circuit fired), the updated cache and monitor, and the
external-call log. -/
structure BatchResult where
  tokens : List Token
  results : List (Option Token)
  cache : ResponseCache Token
  monitor : PerfMonitor
  calls : List String

/-- The refetch round of `getAllTokensInfo`: run `getTokenInfo` for each
catalog entry (sequentialised `Promise.all`), threading cache and
monitor state and accumulating results and the call log. -/
def refetchRound (oracle : ApiOracle) (now : Int) :
    List CatalogEntry → ResponseCache Token → PerfMonitor →
    List (Option Token) × ResponseCache Token × PerfMonitor × List String
  | [], c, m => ([], c, m, [])
  | t :: rest, c, m =>
    let fr := getTokenInfo oracle now c m t.chainId t.symbol
    let r := refetchRound oracle now rest fr.cache fr.monitor
    (fr.result :: r.1, r.2.1, r.2.2.1, fr.calls ++ r.2.2.2)

/-- The per-position substitution of `getAllTokensInfo`: use the fetch
result when it produced a token, else the static fallback record. -/
def substituteFallback (p : CatalogEntry × Option Token) : Token :=
  match p.2 with
  | some tok => tok
  | none => fallbackToken p.1

/-- Model of `getAllTokensInfo()`: if every catalog token is validly cached,
return the cached tokens directly; otherwise run one `getTokenInfo` per
catalog entry and substitute the static fallback record at every
position whose fetch produced no token. -/
def getAllTokensInfo (oracle : ApiOracle) (now : Int)
    (c : ResponseCache Token) (m : PerfMonitor) : BatchResult :=
  let chk := checkAllCached now SUPPORTED_TOKENS c m
  if chk.2.1 then
    ⟨chk.1, [], chk.2.2.1, chk.2.2.2, []⟩
  else
    let r := refetchRound oracle now SUPPORTED_TOKENS chk.2.2.1 chk.2.2.2
    ⟨(SUPPORTED_TOKENS.zip r.1).map substituteFallback, r.1, r.2.1, r.2.2.1, r.2.2.2⟩

/-! ## JavaScript number model for the conversion arithmetic

The conversion view multiplies and divides JavaScript numbers, which can
produce `NaN` and the infinities; `JSNum` is an extended rational with
those special values, with multiplication and division following the
IEEE rules for them (finite magnitudes are exact rationals). -/

inductive JSNum where
  | num (q : ℚ)
  | nan
  | inf
  | ninf
deriving Repr, DecidableEq

/-- Whether a `JSNum` is `NaN` (the `isNaN` check of the code). -/
def JSNum.isNaN : JSNum → Bool
  | .nan => true
  | _ => false

/-- IEEE multiplication on the extended rationals. -/
def JSNum.mul : JSNum → JSNum → JSNum
  | .num a, .num b => .num (a * b)
  | .nan, _ => .nan
  | _, .nan => .nan
  | .inf, .num b => if b = 0 then .nan else if 0 < b then .inf else .ninf
  | .num a, .inf => if a = 0 then .nan else if 0 < a then .inf else .ninf
  | .ninf, .num b => if b = 0 then .nan else if 0 < b then .ninf else .inf
  | .num a, .ninf => if a = 0 then .nan else if 0 < a then .ninf else .inf
  | .inf, .inf => .inf
  | .inf, .ninf => .ninf
  | .ninf, .inf => .ninf
  | .ninf, .ninf => .inf

/-- IEEE division on the extended rationals (division of a nonzero
finite value by zero gives a signed infinity; `0 / 0` gives `NaN`). -/
def JSNum.div : JSNum → JSNum → JSNum
  | .num a, .num b =>
      if b = 0 then
        if a = 0 then .nan else if 0 < a then .inf else .ninf
      else .num (a / b)
  | .nan, _ => .nan
  | _, .nan => .nan
  | .inf, .num b => if 0 ≤ b then .inf else .ninf
  | .ninf, .num b => if 0 ≤ b then .ninf else .inf
  | .num _, .inf => .num 0
  | .num _, .ninf => .num 0
  | .inf, .inf => .nan
  | .inf, .ninf => .nan
  | .ninf, .inf => .nan
  | .ninf, .ninf => .nan

/-- Decimal digit characters of a natural number, most significant
first, via the fuel-based core routine (structurally recursive so that
concrete values reduce). -/
def natDigits (n : Nat) : List Char :=
  Nat.toDigits 10 n

/-- Evaluation of `toFixed(6)` on a nonnegative rational: the integer `n` nearest to
`q * 10^6` (ties upward), written with a decimal point before its last
six digits. -/
def ratToFixed6Nonneg (q : ℚ) : String :=
  let n : Int := Int.fdiv (q.num * 1000000 * 2 + (q.den : Int)) (2 * (q.den : Int))
  let ds := natDigits n.toNat
  let ds := if ds.length < 7 then List.replicate (7 - ds.length) '0' ++ ds else ds
  let k := ds.length - 6
  ⟨ds.take k⟩ ++ "." ++ ⟨ds.drop k⟩

/-- Evaluation of `toFixed(6)` on a rational: the ECMAScript rule extracts the sign
first and formats the magnitude. -/
def ratToFixed6 (q : ℚ) : String :=
  if q.num < 0 then "-" ++ ratToFixed6Nonneg (-q) else ratToFixed6Nonneg q

/-- Evaluation of `toFixed(6)` on a JavaScript number; on the special values it
returns their `ToString` rendering. -/
def JSNum.toFixed6 : JSNum → String
  | .num q => ratToFixed6 q
  | .nan => "NaN"
  | .inf => "Infinity"
  | .ninf => "-Infinity"

/-- Numeric value of a list of decimal digit characters. -/
def digitsVal (l : List Char) : Nat :=
  l.foldl (fun a c => a * 10 + (c.toNat - 48)) 0

/-- Model of `parseFloat` restricted to the strings the amount inputs can hold
(digits with at most one decimal point): the integer part plus the
scaled fractional part, or `NaN` when the string has no digit at all
(the empty string or a lone point). -/
def parseFloatAccepted (s : String) : JSNum :=
  let cs := s.toList
  let intPart := cs.takeWhile (fun c => c ≠ '.')
  let fracPart := (cs.dropWhile (fun c => c ≠ '.')).drop 1
  if intPart = [] ∧ fracPart = [] then .nan
  else .num ((digitsVal intPart : ℚ) + (digitsVal fracPart : ℚ) / 10 ^ fracPart.length)

/-! ## Conversion view (`App` in the README) -/

/-- What may follow the leading digit run in `^\d*\.?\d*$`: nothing, or
a single point followed by digits to the end. -/
def decimalTail : List Char → Bool
  | [] => true
  | c :: rest => c == '.' && rest.all Char.isDigit

/-- The regular expression `^\d*\.?\d*$` as a matcher: a greedy run of
digits, then an optional single point, then digits to the end. -/
def matchesDecimalPattern (s : String) : Bool :=
  decimalTail (s.toList.dropWhile Char.isDigit)

/-- The conversion-view state the arithmetic contract touches: the two
selected tokens (absent while loading) and the two amount strings. -/
structure SwapState where
  leftToken : Option Token
  rightToken : Option Token
  leftAmount : String
  rightAmount : String
deriving Repr, DecidableEq

/-- Model of `handleLeftAmountChange`: accept the new value into `leftAmount`
when it is empty or matches the decimal pattern; otherwise leave the
state unchanged. -/
def handleLeftAmountChange (st : SwapState) (value : String) : SwapState :=
  if value = "" || matchesDecimalPattern value then
    { st with leftAmount := value }
  else st

/-- The derivation `useEffect`: with both tokens selected and a
non-empty (debounced) left amount, compute
`parseFloat(leftAmount) * leftToken.price / rightToken.price`, render
`"0"` when the result is `NaN` and `toFixed(6)` otherwise; in every
other case set the right amount to the empty string. -/
def deriveRightAmount (leftToken rightToken : Option Token)
    (debouncedLeftAmount : String) : String :=
  match leftToken, rightToken with
  | some lt, some rt =>
    if debouncedLeftAmount ≠ "" then
      let leftValue := JSNum.mul (parseFloatAccepted debouncedLeftAmount) (.num lt.price)
      let rightValue := JSNum.div leftValue (.num rt.price)
      if rightValue.isNaN then "0" else rightValue.toFixed6
    else ""
  | _, _ => ""

/-- One recorded cache access: `true` is a hit, `false` a miss. -/
def PerfMonitor.recordAccess (m : PerfMonitor) (b : Bool) : PerfMonitor :=
  if b then m.recordCacheHit else m.recordCacheMiss

/-! ## Theorems -/

lemma foldl_recordAccess_counts (ops : List Bool) (m : PerfMonitor) :
    (ops.foldl PerfMonitor.recordAccess m).cacheHits = m.cacheHits + ops.count true ∧
    (ops.foldl PerfMonitor.recordAccess m).cacheMisses = m.cacheMisses + ops.count false := by
  induction ops generalizing m with
  | nil => simp
  | cons b t ih =>
    rcases ih (m.recordAccess b) with ⟨ih1, ih2⟩
    constructor
    · rw [List.foldl_cons, ih1]
      cases b <;>
        simp [PerfMonitor.recordAccess, PerfMonitor.recordCacheHit,
          PerfMonitor.recordCacheMiss, List.count_cons] <;> omega
    · rw [List.foldl_cons, ih2]
      cases b <;>
        simp [PerfMonitor.recordAccess, PerfMonitor.recordCacheHit,
          PerfMonitor.recordCacheMiss, List.count_cons] <;> omega

lemma count_true_add_count_false (l : List Bool) : l.count true + l.count false = l.length := by
  induction l with
  | nil => simp
  | cons b t ih => cases b <;> simp [List.count_cons] <;> omega

/-- C9: after any sequence of recorded cache hits and misses, the
reported cache hit rate equals `hits / (hits + misses) * 100`, i.e.
the number of hits over the number of accesses times 100, and it is 0
when no access has been recorded. -/
theorem cache_hit_rate_spec (ops : List Bool) :
    (ops.foldl PerfMonitor.recordAccess PerfMonitor.init).getCacheHitRate =
      if ops = [] then 0 else ((ops.count true : ℚ) / (ops.length : ℚ)) * 100 := by
  rcases foldl_recordAccess_counts ops PerfMonitor.init with ⟨h1, h2⟩
  have hlen := count_true_add_count_false ops
  have hih : PerfMonitor.init.cacheHits = 0 := rfl
  have him : PerfMonitor.init.cacheMisses = 0 := rfl
  simp only [PerfMonitor.getCacheHitRate]
  rw [h1, h2, hih, him, Nat.zero_add, Nat.zero_add]
  by_cases hops : ops = []
  · subst hops; simp
  · have hlpos : ops.length ≠ 0 := fun hh => hops (List.length_eq_zero.mp hh)
    rw [if_neg hops, if_neg (show ¬ (ops.count true + ops.count false = 0) by omega)]
    rw [hlen]

lemma recordMetric_metrics (m : PerfMonitor) (label l : String) (v : ℚ) :
    (m.recordMetric label v).metrics l =
      if l = label then
        (if (m.metrics label ++ [v]).length > 100 then (m.metrics label ++ [v]).tail
         else m.metrics label ++ [v])
      else m.metrics l := by
  rfl

lemma recordMetric_bound (m : PerfMonitor) (label : String) (v : ℚ)
    (h : ∀ l, (m.metrics l).length ≤ 100) :
    ∀ l, ((m.recordMetric label v).metrics l).length ≤ 100 := by
  intro l
  rw [recordMetric_metrics]
  by_cases hl : l = label
  · subst hl
    rw [if_pos rfl]
    by_cases hlen : (m.metrics l ++ [v]).length > 100
    · rw [if_pos hlen, List.length_tail, List.length_append, List.length_singleton]
      have := h l
      omega
    · rw [if_neg hlen]
      omega
  · rw [if_neg hl]
    exact h l

/-- C10: for every metric label, the list of recorded values never
exceeds 100 entries after any sequence of `recordMetric` calls starting
from the freshly constructed monitor; and a `recordMetric` on a label
already holding 100 values appends the new value and discards the
oldest one. -/
theorem metric_storage_bounded :
    (∀ (ops : List (String × ℚ)) (label : String),
      (((ops.foldl (fun m p => m.recordMetric p.1 p.2) PerfMonitor.init).metrics label)).length ≤ 100) ∧
    (∀ (m : PerfMonitor) (label : String) (v : ℚ), (m.metrics label).length = 100 →
      (m.recordMetric label v).metrics label = (m.metrics label).tail ++ [v]) := by
  constructor
  · intro ops label
    suffices h : ∀ (m : PerfMonitor), (∀ l, (m.metrics l).length ≤ 100) →
        ∀ l, (((ops.foldl (fun m p => m.recordMetric p.1 p.2) m).metrics l)).length ≤ 100 by
      exact h PerfMonitor.init (by intro l; simp [PerfMonitor.init]) label
    induction ops with
    | nil => intro m hm l; simpa using hm l
    | cons p t ih =>
      intro m hm l
      exact ih (m.recordMetric p.1 p.2) (recordMetric_bound m p.1 p.2 hm) l
  · intro m label v h
    rw [recordMetric_metrics, if_pos rfl]
    have hgt : (m.metrics label ++ [v]).length > 100 := by
      rw [List.length_append, h, List.length_singleton]
      omega
    rw [if_pos hgt]
    cases hm : m.metrics label with
    | nil => rw [hm] at h; simp at h
    | cons a t => simp

/-- C2: a `get` of key `k` directly after `set(k, v)`, with less than
the 5-minute TTL elapsed on the clock, returns exactly `v`. -/
theorem cache_get_after_set_within_ttl {α : Type} (c : ResponseCache α)
    (m : PerfMonitor) (k : String) (v : α) (t now : Int)
    (h1 : t ≤ now) (h2 : now - t < TTL) :
    ((c.set t k v).get m now k).1 = some v := by
  have hcond : ¬ (now - t > TTL) := by omega
  simp [ResponseCache.get, ResponseCache.set, hcond]

/-- Witness for C2 at a concrete input. -/
theorem cache_get_after_set_within_ttl_witness :
    (0 : Int) ≤ 1 ∧ (1 : Int) - 0 < TTL ∧
    (((ResponseCache.empty (α := Nat)).set 0 "k" 5).get PerfMonitor.init 1 "k").1 = some 5 :=
  ⟨by decide, by decide,
    cache_get_after_set_within_ttl ResponseCache.empty PerfMonitor.init "k" 5 0 1
      (by decide) (by decide)⟩

/-- C3: a `get` of key `k` after `set(k, v)` with the clock advanced
beyond the TTL returns absent, deletes the entry (the key is absent in
the resulting cache, so a subsequent `get` also returns absent), and
records a miss rather than a hit. -/
theorem cache_get_after_ttl_expiry {α : Type} (c : ResponseCache α)
    (m : PerfMonitor) (k : String) (v : α) (t now : Int)
    (h : now - t > TTL) :
    ((c.set t k v).get m now k).1 = none ∧
    ((c.set t k v).get m now k).2.1.cache k = none ∧
    ((((c.set t k v).get m now k).2.1).get ((c.set t k v).get m now k).2.2 now k).1 = none ∧
    ((c.set t k v).get m now k).2.2.cacheMisses = m.cacheMisses + 1 ∧
    ((c.set t k v).get m now k).2.2.cacheHits = m.cacheHits := by
  simp [ResponseCache.get, ResponseCache.set, h, PerfMonitor.recordCacheMiss]

/-- Witness for C3 at a concrete input. -/
theorem cache_get_after_ttl_expiry_witness :
    (300001 : Int) - 0 > TTL ∧
    ((((ResponseCache.empty (α := Nat)).set 0 "k" 5).get PerfMonitor.init 300001 "k").1 = none ∧
     (((ResponseCache.empty (α := Nat)).set 0 "k" 5).get PerfMonitor.init 300001 "k").2.1.cache "k" = none ∧
     ((((((ResponseCache.empty (α := Nat)).set 0 "k" 5).get PerfMonitor.init 300001 "k").2.1)).get
        ((((ResponseCache.empty (α := Nat)).set 0 "k" 5).get PerfMonitor.init 300001 "k").2.2) 300001 "k").1 = none ∧
     (((ResponseCache.empty (α := Nat)).set 0 "k" 5).get PerfMonitor.init 300001 "k").2.2.cacheMisses =
       PerfMonitor.init.cacheMisses + 1 ∧
     (((ResponseCache.empty (α := Nat)).set 0 "k" 5).get PerfMonitor.init 300001 "k").2.2.cacheHits =
       PerfMonitor.init.cacheHits) :=
  ⟨by decide,
    cache_get_after_ttl_expiry ResponseCache.empty PerfMonitor.init "k" 5 0 300001 (by decide)⟩

lemma all_isDigit_iff (t : List Char) :
    t.all Char.isDigit = true ↔ ((∀ c ∈ t, c.isDigit ∨ c = '.') ∧ '.' ∉ t) := by
  rw [List.all_eq_true]
  constructor
  · intro h
    refine ⟨fun c hc => Or.inl (h c hc), fun hdot => ?_⟩
    have := h '.' hdot
    simp [Char.isDigit] at this
  · rintro ⟨h1, h2⟩ c hc
    rcases h1 c hc with hd | hd
    · exact hd
    · exact absurd (hd ▸ hc) h2

lemma decimalPattern_chars (cs : List Char) :
    decimalTail (cs.dropWhile Char.isDigit) = true ↔
      ((∀ c ∈ cs, c.isDigit ∨ c = '.') ∧ cs.count '.' ≤ 1) := by
  induction cs with
  | nil => simp [decimalTail]
  | cons c t ih =>
    by_cases hd : c.isDigit
    · have hdot : ¬ (c = '.') := by
        intro hc
        subst hc
        simp [Char.isDigit] at hd
      rw [List.dropWhile_cons, if_pos hd, ih]
      simp only [List.mem_cons, List.count_cons]
      constructor
      · rintro ⟨h1, h2⟩
        refine ⟨fun x hx => ?_, ?_⟩
        · rcases hx with rfl | hx
          · exact Or.inl hd
          · exact h1 x hx
        · simpa [hdot] using h2
      · rintro ⟨h1, h2⟩
        refine ⟨fun x hx => h1 x (Or.inr hx), ?_⟩
        simpa [hdot] using h2
    · rw [List.dropWhile_cons, if_neg hd]
      by_cases hc : c = '.'
      · subst hc
        have hdt : decimalTail ('.' :: t) = t.all Char.isDigit := by
          simp [decimalTail]
        rw [hdt, all_isDigit_iff, List.count_cons_self]
        simp only [List.mem_cons]
        constructor
        · rintro ⟨h1, h2⟩
          have hcnt : t.count '.' = 0 := List.count_eq_zero.mpr h2
          refine ⟨fun x hx => ?_, by omega⟩
          rcases hx with rfl | hx
          · exact Or.inr rfl
          · exact h1 x hx
        · rintro ⟨h1, h2⟩
          have hcnt : t.count '.' = 0 := by omega
          exact ⟨fun x hx => h1 x (Or.inr hx), List.count_eq_zero.mp hcnt⟩
      · simp only [decimalTail]
        constructor
        · intro h
          have : (c == '.') = true := by
            cases hbe : (c == '.')
            · rw [hbe] at h
              simp at h
            · rfl
          exact absurd (beq_iff_eq.mp this) hc
        · rintro ⟨h1, _⟩
          rcases h1 c (List.mem_cons_self c t) with hx | hx
          · exact absurd hx hd
          · exact absurd hx hc

/-- C8: an input string is accepted into the amount state iff it
matches the decimal pattern, which holds exactly when the string
consists of digits and at most one decimal point; a non-matching input
leaves the state completely unchanged. -/
theorem amount_input_acceptance (st : SwapState) (v : String) :
    (matchesDecimalPattern v = true ↔
      ((∀ c ∈ v.toList, c.isDigit ∨ c = '.') ∧ v.toList.count '.' ≤ 1)) ∧
    (matchesDecimalPattern v = true →
      handleLeftAmountChange st v = { st with leftAmount := v }) ∧
    (matchesDecimalPattern v = false → handleLeftAmountChange st v = st) := by
  refine ⟨decimalPattern_chars v.toList, fun h => ?_, fun h => ?_⟩
  · unfold handleLeftAmountChange
    rw [h]
    simp
  · have hve : ¬ (v = "") := by
      intro hv
      subst hv
      simp [matchesDecimalPattern, decimalTail] at h
    unfold handleLeftAmountChange
    rw [h]
    simp [hve]

/-- Witness for C8: the input "12.34" is accepted and "12.34.5" is
rejected with the state unchanged. -/
theorem amount_input_acceptance_witness :
    matchesDecimalPattern "12.34" = true ∧
    handleLeftAmountChange ⟨none, none, "", ""⟩ "12.34" =
      { (⟨none, none, "", ""⟩ : SwapState) with leftAmount := "12.34" } ∧
    matchesDecimalPattern "12.34.5" = false ∧
    handleLeftAmountChange ⟨none, none, "", ""⟩ "12.34.5" = ⟨none, none, "", ""⟩ :=
  ⟨by decide, (amount_input_acceptance ⟨none, none, "", ""⟩ "12.34").2.1 (by decide),
    by decide, (amount_input_acceptance ⟨none, none, "", ""⟩ "12.34.5").2.2 (by decide)⟩

lemma get_none_key_none {α : Type} {c : ResponseCache α} {m : PerfMonitor}
    {now : Int} {k : String} (h : (c.get m now k).1 = none) :
    (c.get m now k).2.1.cache k = none := by
  unfold ResponseCache.get at h ⊢
  cases hc : c.cache k with
  | none => simp [hc]
  | some e =>
    by_cases ht : now - e.timestamp > TTL
    · simp [hc, ht]
    · simp [hc, ht] at h

lemma get_some_state {α : Type} {c : ResponseCache α} {m : PerfMonitor}
    {now : Int} {k : String} {v : α} (h : (c.get m now k).1 = some v) :
    (c.get m now k).2.1 = c ∧ (c.get m now k).2.2 = m.recordCacheHit := by
  unfold ResponseCache.get at h ⊢
  cases hc : c.cache k with
  | none => simp [hc] at h
  | some e =>
    by_cases ht : now - e.timestamp > TTL
    · simp [hc, ht] at h
    · simp [hc, ht]

lemma get_of_validCached {α : Type} {c : ResponseCache α} {now : Int}
    {k : String} (h : validCached c now k = true) (m : PerfMonitor) :
    ∃ e, c.cache k = some e ∧ c.get m now k = (some e.data, c, m.recordCacheHit) := by
  unfold validCached at h
  cases hc : c.cache k with
  | none => rw [hc] at h; simp at h
  | some e =>
    rw [hc] at h
    have ht : now - e.timestamp ≤ TTL := of_decide_eq_true h
    refine ⟨e, rfl, ?_⟩
    unfold ResponseCache.get
    rw [hc]
    simp [show ¬ (now - e.timestamp > TTL) from by omega]

lemma get_none_of_not_validCached {α : Type} {c : ResponseCache α} {now : Int}
    {k : String} (h : validCached c now k = false) (m : PerfMonitor) :
    (c.get m now k).1 = none := by
  unfold validCached at h
  unfold ResponseCache.get
  cases hc : c.cache k with
  | none => simp [hc]
  | some e =>
    rw [hc] at h
    have ht : ¬ (now - e.timestamp ≤ TTL) := of_decide_eq_false h
    simp [hc, show now - e.timestamp > TTL from by omega]

/-- C6: `getTokenInfo` fails soft.  On a cache miss, if the metadata
call throws or returns no token the result is absent and nothing is
written to the cache (the cache is exactly the post-`get` cache, which
holds nothing under the key); if the metadata call succeeds but the
price call throws or yields no price, the result is a found token with
price 0, written to the cache under the key before being returned.  The
model is a total function, so no exception ever propagates. -/
theorem getTokenInfo_fails_soft (oracle : ApiOracle) (now : Int)
    (c : ResponseCache Token) (m : PerfMonitor) (chainId symbol : String)
    (raw : RawToken) (addr : String)
    (hmiss : (c.get m now (cacheKeyOf chainId symbol)).1 = none) :
    ((oracle.metadata chainId symbol = .failure ∨
        oracle.metadata chainId symbol = .success none) →
      (getTokenInfo oracle now c m chainId symbol).result = none ∧
      (getTokenInfo oracle now c m chainId symbol).cache =
        (c.get m now (cacheKeyOf chainId symbol)).2.1 ∧
      (getTokenInfo oracle now c m chainId symbol).cache.cache
        (cacheKeyOf chainId symbol) = none) ∧
    (oracle.metadata chainId symbol = .success (some raw) → raw.address = some addr →
      (oracle.priceLookup chainId addr = .failure ∨
        oracle.priceLookup chainId addr = .success none) →
      (getTokenInfo oracle now c m chainId symbol).result =
        some ⟨raw.symbol.getD symbol, raw.name.getD symbol, 0,
          getTokenIcon symbol, chainId, some addr⟩ ∧
      (getTokenInfo oracle now c m chainId symbol).cache.cache
        (cacheKeyOf chainId symbol) =
        some ⟨⟨raw.symbol.getD symbol, raw.name.getD symbol, 0,
          getTokenIcon symbol, chainId, some addr⟩, now⟩) := by
  have hkey := get_none_key_none hmiss
  constructor
  · rintro (hmeta | hmeta) <;>
      exact ⟨by simp only [getTokenInfo, hmiss, hmeta],
        by simp only [getTokenInfo, hmiss, hmeta],
        by simp only [getTokenInfo, hmiss, hmeta]; exact hkey⟩
  · intro hmeta haddr hprice
    rcases hprice with hp | hp <;>
      constructor <;>
        simp [getTokenInfo, hmiss, hmeta, haddr, hp, ResponseCache.set]

/-- Witness for C6 at concrete inputs: one run whose metadata call
throws, and one whose metadata call succeeds with an address but whose
price call throws. -/
theorem getTokenInfo_fails_soft_witness :
    ((ResponseCache.empty (α := Token)).get PerfMonitor.init 0
      (cacheKeyOf "1" "USDC")).1 = none ∧
    (⟨fun _ _ => .failure, fun _ _ => .failure⟩ : ApiOracle).metadata "1" "USDC" = .failure ∧
    (getTokenInfo ⟨fun _ _ => .failure, fun _ _ => .failure⟩ 0
      ResponseCache.empty PerfMonitor.init "1" "USDC").result = none ∧
    (getTokenInfo ⟨fun _ _ => .failure, fun _ _ => .failure⟩ 0
      ResponseCache.empty PerfMonitor.init "1" "USDC").cache.cache
      (cacheKeyOf "1" "USDC") = none ∧
    (⟨fun _ _ => .success (some ⟨some "USDC", some "USD Coin", some "0xA"⟩),
        fun _ _ => .failure⟩ : ApiOracle).priceLookup "1" "0xA" = .failure ∧
    (getTokenInfo ⟨fun _ _ => .success (some ⟨some "USDC", some "USD Coin", some "0xA"⟩),
        fun _ _ => .failure⟩ 0 ResponseCache.empty PerfMonitor.init "1" "USDC").result =
      some ⟨"USDC", "USD Coin", 0, getTokenIcon "USDC", "1", some "0xA"⟩ ∧
    (getTokenInfo ⟨fun _ _ => .success (some ⟨some "USDC", some "USD Coin", some "0xA"⟩),
        fun _ _ => .failure⟩ 0 ResponseCache.empty PerfMonitor.init "1" "USDC").cache.cache
      (cacheKeyOf "1" "USDC") =
      some ⟨⟨"USDC", "USD Coin", 0, getTokenIcon "USDC", "1", some "0xA"⟩, 0⟩ := by
  have hA := (getTokenInfo_fails_soft
    ⟨fun _ _ => .failure, fun _ _ => .failure⟩ 0
    ResponseCache.empty PerfMonitor.init "1" "USDC"
    ⟨none, none, none⟩ "0xA" rfl).1 (Or.inl rfl)
  have hB := (getTokenInfo_fails_soft
    ⟨fun _ _ => .success (some ⟨some "USDC", some "USD Coin", some "0xA"⟩),
      fun _ _ => .failure⟩ 0
    ResponseCache.empty PerfMonitor.init "1" "USDC"
    ⟨some "USDC", some "USD Coin", some "0xA"⟩ "0xA" rfl).2 rfl rfl (Or.inl rfl)
  exact ⟨rfl, rfl, hA.1, hA.2.2, rfl, by simpa using hB.1, by simpa using hB.2⟩

lemma checkAllCached_all_valid (now : Int) (cats : List CatalogEntry)
    (c : ResponseCache Token) (m : PerfMonitor)
    (h : cats.all (fun t => validCached c now (cacheKeyOf t.chainId t.symbol)) = true) :
    (checkAllCached now cats c m).2.1 = true ∧
    (checkAllCached now cats c m).2.2.1 = c ∧
    (checkAllCached now cats c m).1 =
      cats.filterMap
        (fun t => (c.cache (cacheKeyOf t.chainId t.symbol)).map CacheEntry.data) := by
  induction cats generalizing m with
  | nil => simp [checkAllCached]
  | cons t ts ih =>
    rw [List.all_cons, Bool.and_eq_true] at h
    obtain ⟨e, hce, hget⟩ := get_of_validCached h.1 m
    have iht := ih m.recordCacheHit h.2
    refine ⟨by simp only [checkAllCached, hget]; exact iht.1,
      by simp only [checkAllCached, hget]; exact iht.2.1, ?_⟩
    rw [List.filterMap_cons_some (by rw [hce]; rfl)]
    simp only [checkAllCached, hget]
    rw [iht.2.2]

lemma checkAllCached_not_all_valid (now : Int) (cats : List CatalogEntry)
    (c : ResponseCache Token) (m : PerfMonitor)
    (h : cats.all (fun t => validCached c now (cacheKeyOf t.chainId t.symbol)) = false) :
    (checkAllCached now cats c m).2.1 = false := by
  induction cats generalizing m with
  | nil => simp at h
  | cons t ts ih =>
    rw [List.all_cons] at h
    cases hv : validCached c now (cacheKeyOf t.chainId t.symbol) with
    | true =>
      obtain ⟨e, hce, hget⟩ := get_of_validCached hv m
      have hts : ts.all (fun t => validCached c now (cacheKeyOf t.chainId t.symbol)) = false := by
        rw [hv] at h
        simpa using h
      simp only [checkAllCached, hget]
      exact ih m.recordCacheHit hts
    | false =>
      have hget1 := get_none_of_not_validCached hv m
      simp only [checkAllCached, hget1]

lemma checkAllCached_true_length (now : Int) (cats : List CatalogEntry)
    (c : ResponseCache Token) (m : PerfMonitor)
    (h : (checkAllCached now cats c m).2.1 = true) :
    (checkAllCached now cats c m).1.length = cats.length := by
  induction cats generalizing c m with
  | nil => rfl
  | cons t ts ih =>
    cases hg : (c.get m now (cacheKeyOf t.chainId t.symbol)).1 with
    | none =>
      simp only [checkAllCached, hg] at h
      exact absurd h (by decide)
    | some tok =>
      simp only [checkAllCached, hg] at h ⊢
      simp [ih _ _ h]

lemma refetchRound_length (oracle : ApiOracle) (now : Int) (cats : List CatalogEntry)
    (c : ResponseCache Token) (m : PerfMonitor) :
    (refetchRound oracle now cats c m).1.length = cats.length := by
  induction cats generalizing c m with
  | nil => rfl
  | cons t ts ih =>
    simp only [refetchRound, List.length_cons]
    rw [ih]

lemma substitute_getElem? (cats : List CatalogEntry) (res : List (Option Token))
    (i : Nat) (t : CatalogEntry) (ro : Option Token)
    (h1 : cats[i]? = some t) (h2 : res[i]? = some ro) :
    ((cats.zip res).map substituteFallback)[i]? = some (substituteFallback (t, ro)) := by
  induction cats generalizing res i with
  | nil => simp at h1
  | cons a l ih =>
    cases res with
    | nil => simp at h2
    | cons b rs =>
      cases i with
      | zero =>
        simp only [List.getElem?_cons_zero, Option.some.injEq] at h1 h2
        subst h1
        subst h2
        simp [List.zip_cons_cons]
      | succ n =>
        simp only [List.zip_cons_cons, List.map_cons, List.getElem?_cons_succ] at h1 h2 ⊢
        exact ih rs n h1 h2

/-- C7: the all-or-nothing cache short circuit of `getAllTokensInfo`.
If every catalog token has a valid cache entry, the batch returns
exactly the cached tokens in catalog order and performs no external
call; if at least one catalog token lacks a valid entry, a full refetch
round is issued, running `getTokenInfo` once per catalog entry (4
per-position results). -/
theorem batch_cache_short_circuit (oracle : ApiOracle) (now : Int)
    (c : ResponseCache Token) (m : PerfMonitor) :
    ((SUPPORTED_TOKENS.all
        (fun t => validCached c now (cacheKeyOf t.chainId t.symbol)) = true) →
      (getAllTokensInfo oracle now c m).calls = [] ∧
      (getAllTokensInfo oracle now c m).results = [] ∧
      (getAllTokensInfo oracle now c m).tokens =
        SUPPORTED_TOKENS.filterMap
          (fun t => (c.cache (cacheKeyOf t.chainId t.symbol)).map CacheEntry.data)) ∧
    ((SUPPORTED_TOKENS.all
        (fun t => validCached c now (cacheKeyOf t.chainId t.symbol)) = false) →
      (getAllTokensInfo oracle now c m).results.length = 4) := by
  constructor
  · intro h
    obtain ⟨h1, _, h3⟩ := checkAllCached_all_valid now SUPPORTED_TOKENS c m h
    exact ⟨by simp only [getAllTokensInfo, h1, if_true],
      by simp only [getAllTokensInfo, h1, if_true],
      by simp only [getAllTokensInfo, h1, if_true]; exact h3⟩
  · intro h
    have hfl := checkAllCached_not_all_valid now SUPPORTED_TOKENS c m h
    simp only [getAllTokensInfo, hfl, Bool.false_eq_true, if_false]
    rw [refetchRound_length]
    rfl

/-- Witness for C7: a cache holding fresh entries for all four catalog
tokens short-circuits with no calls, and the empty cache forces a full
refetch round of 4 per-position results. -/
theorem batch_cache_short_circuit_witness :
    (SUPPORTED_TOKENS.all
      (fun t => validCached
        ((((ResponseCache.empty.set 0 "token-1-USDC" (fallbackToken ⟨"USDC", "USD Coin", "1", "💵"⟩)).set
            0 "token-137-USDT" (fallbackToken ⟨"USDT", "Tether USD", "137", "💵"⟩)).set
            0 "token-8453-ETH" (fallbackToken ⟨"ETH", "Ethereum", "8453", "Ξ"⟩)).set
            0 "token-1-WBTC" (fallbackToken ⟨"WBTC", "Wrapped Bitcoin", "1", "₿"⟩))
        0 (cacheKeyOf t.chainId t.symbol)) = true) ∧
    (getAllTokensInfo ⟨fun _ _ => .failure, fun _ _ => .failure⟩ 0
      ((((ResponseCache.empty.set 0 "token-1-USDC" (fallbackToken ⟨"USDC", "USD Coin", "1", "💵"⟩)).set
          0 "token-137-USDT" (fallbackToken ⟨"USDT", "Tether USD", "137", "💵"⟩)).set
          0 "token-8453-ETH" (fallbackToken ⟨"ETH", "Ethereum", "8453", "Ξ"⟩)).set
          0 "token-1-WBTC" (fallbackToken ⟨"WBTC", "Wrapped Bitcoin", "1", "₿"⟩))
      PerfMonitor.init).calls = [] ∧
    (SUPPORTED_TOKENS.all
      (fun t => validCached (ResponseCache.empty (α := Token)) 0
        (cacheKeyOf t.chainId t.symbol)) = false) ∧
    (getAllTokensInfo ⟨fun _ _ => .failure, fun _ _ => .failure⟩ 0
      ResponseCache.empty PerfMonitor.init).results.length = 4 := by
  refine ⟨by decide, ?_, by decide, ?_⟩
  · exact ((batch_cache_short_circuit ⟨fun _ _ => .failure, fun _ _ => .failure⟩ 0
      ((((ResponseCache.empty.set 0 "token-1-USDC" (fallbackToken ⟨"USDC", "USD Coin", "1", "💵"⟩)).set
          0 "token-137-USDT" (fallbackToken ⟨"USDT", "Tether USD", "137", "💵"⟩)).set
          0 "token-8453-ETH" (fallbackToken ⟨"ETH", "Ethereum", "8453", "Ξ"⟩)).set
          0 "token-1-WBTC" (fallbackToken ⟨"WBTC", "Wrapped Bitcoin", "1", "₿"⟩))
      PerfMonitor.init).1 (by decide)).1
  · exact (batch_cache_short_circuit ⟨fun _ _ => .failure, fun _ _ => .failure⟩ 0
      ResponseCache.empty PerfMonitor.init).2 (by decide)

/-- C1: `getAllTokensInfo` always returns exactly one token per catalog
entry, in catalog order: the token list has length 4; in a refetch
round, every position whose fetch produced no token carries the static
fallback record of its catalog entry, and every position whose fetch
produced a token carries that token. -/
theorem batch_catalog_shape (oracle : ApiOracle) (now : Int)
    (c : ResponseCache Token) (m : PerfMonitor) :
    (getAllTokensInfo oracle now c m).tokens.length = 4 ∧
    (∀ (i : Nat) (t : CatalogEntry), SUPPORTED_TOKENS[i]? = some t →
      (getAllTokensInfo oracle now c m).results[i]? = some none →
      (getAllTokensInfo oracle now c m).tokens[i]? = some (fallbackToken t)) ∧
    (∀ (i : Nat) (tok : Token),
      (getAllTokensInfo oracle now c m).results[i]? = some (some tok) →
      (getAllTokensInfo oracle now c m).tokens[i]? = some tok) := by
  cases hflag : (checkAllCached now SUPPORTED_TOKENS c m).2.1 with
  | true =>
    have hlen := checkAllCached_true_length now SUPPORTED_TOKENS c m hflag
    refine ⟨?_, ?_, ?_⟩
    · simp only [getAllTokensInfo, hflag, if_true]
      exact hlen
    · intro i t _ h2
      simp only [getAllTokensInfo, hflag, if_true] at h2
      simp at h2
    · intro i tok h2
      simp only [getAllTokensInfo, hflag, if_true] at h2
      simp at h2
  | false =>
    have hrlen := refetchRound_length oracle now SUPPORTED_TOKENS
      (checkAllCached now SUPPORTED_TOKENS c m).2.2.1
      (checkAllCached now SUPPORTED_TOKENS c m).2.2.2
    refine ⟨?_, ?_, ?_⟩
    · simp only [getAllTokensInfo, hflag, Bool.false_eq_true, if_false]
      rw [List.length_map, List.length_zip, hrlen]
      rfl
    · intro i t h1 h2
      simp only [getAllTokensInfo, hflag, Bool.false_eq_true, if_false] at h2 ⊢
      have := substitute_getElem? SUPPORTED_TOKENS _ i t none h1 h2
      simpa [substituteFallback] using this
    · intro i tok h2
      simp only [getAllTokensInfo, hflag, Bool.false_eq_true, if_false] at h2 ⊢
      obtain ⟨hi, _⟩ := List.getElem?_eq_some.mp h2
      rw [hrlen] at hi
      have h1 : SUPPORTED_TOKENS[i]? = some (SUPPORTED_TOKENS.get ⟨i, hi⟩) :=
        List.getElem?_eq_getElem hi
      have hsub := substitute_getElem? SUPPORTED_TOKENS _ i
        (SUPPORTED_TOKENS.get ⟨i, hi⟩) (some tok) h1 h2
      simpa [substituteFallback] using hsub

/-- Witness for C1: with the empty cache and an oracle whose calls all
fail, position 0 carries the USDC fallback record; with an oracle whose
metadata calls succeed without an address, position 0 carries the
fetched token. -/
theorem batch_catalog_shape_witness :
    SUPPORTED_TOKENS[0]? = some ⟨"USDC", "USD Coin", "1", "💵"⟩ ∧
    (getAllTokensInfo ⟨fun _ _ => .failure, fun _ _ => .failure⟩ 0
      ResponseCache.empty PerfMonitor.init).results[0]? = some none ∧
    (getAllTokensInfo ⟨fun _ _ => .failure, fun _ _ => .failure⟩ 0
      ResponseCache.empty PerfMonitor.init).tokens[0]? =
        some (fallbackToken ⟨"USDC", "USD Coin", "1", "💵"⟩) ∧
    (getAllTokensInfo ⟨fun _ _ => .failure, fun _ _ => .failure⟩ 0
      ResponseCache.empty PerfMonitor.init).tokens.length = 4 ∧
    (getAllTokensInfo ⟨fun _ s => .success (some ⟨some s, none, none⟩),
        fun _ _ => .failure⟩ 0 ResponseCache.empty PerfMonitor.init).results[0]? =
      some (some ⟨"USDC", "USDC", 0, getTokenIcon "USDC", "1", none⟩) ∧
    (getAllTokensInfo ⟨fun _ s => .success (some ⟨some s, none, none⟩),
        fun _ _ => .failure⟩ 0 ResponseCache.empty PerfMonitor.init).tokens[0]? =
      some (⟨"USDC", "USDC", 0, getTokenIcon "USDC", "1", none⟩ : Token) :=
  ⟨rfl, rfl,
    (batch_catalog_shape ⟨fun _ _ => .failure, fun _ _ => .failure⟩ 0
      ResponseCache.empty PerfMonitor.init).2.1 0 ⟨"USDC", "USD Coin", "1", "💵"⟩ rfl rfl,
    (batch_catalog_shape ⟨fun _ _ => .failure, fun _ _ => .failure⟩ 0
      ResponseCache.empty PerfMonitor.init).1,
    rfl,
    (batch_catalog_shape ⟨fun _ s => .success (some ⟨some s, none, none⟩),
        fun _ _ => .failure⟩ 0 ResponseCache.empty PerfMonitor.init).2.2 0
      ⟨"USDC", "USDC", 0, getTokenIcon "USDC", "1", none⟩ rfl⟩

/-- A monitor holding exactly 100 recorded values under the label
"render", used to witness the bound of `recordMetric`. -/
def monitorWith100 : PerfMonitor where
  metrics := fun l => if l = "render" then List.replicate 100 (0 : ℚ) else []
  cacheHits := 0
  cacheMisses := 0

/-- Witness for C10: a monitor holding exactly 100 values under a label
drops the oldest value when one more is recorded. -/
theorem metric_storage_bounded_witness :
    (monitorWith100.metrics "render").length = 100 ∧
    (monitorWith100.recordMetric "render" 7).metrics "render" =
      (monitorWith100.metrics "render").tail ++ [7] := by
  have h : (monitorWith100.metrics "render").length = 100 := by
    simp [monitorWith100]
  exact ⟨h, metric_storage_bounded.2 monitorWith100 "render" 7 h⟩

lemma parseFloat_one : parseFloatAccepted "1" = JSNum.num 1 := by
  have ht : "1".toList.takeWhile (fun c => c ≠ '.') = ['1'] := by decide
  have hd : ("1".toList.dropWhile (fun c => c ≠ '.')).drop 1 = ([] : List Char) := by decide
  have h1 : digitsVal ['1'] = 1 := by decide
  simp only [parseFloatAccepted, ht, hd, h1]
  norm_num [digitsVal]

/-- C4: with both tokens selected and a non-empty accepted left amount
that parses to the finite value `q`, and a nonzero right-token price,
the derived right amount is the exact quotient
`q * leftToken.price / rightToken.price` rendered by `toFixed(6)`; in
particular USDC (price 1) to ETH (price 2500) with amount "1" gives
"0.000400". -/
theorem conversion_linear_rate :
    (∀ (lt rt : Token) (s : String) (q : ℚ),
      s ≠ "" → matchesDecimalPattern s = true →
      parseFloatAccepted s = JSNum.num q → rt.price ≠ 0 →
      deriveRightAmount (some lt) (some rt) s =
        ratToFixed6 (q * lt.price / rt.price)) ∧
    deriveRightAmount (some ⟨"USDC", "USD Coin", 1, "💵", "1", none⟩)
      (some ⟨"ETH", "Ethereum", 2500, "Ξ", "8453", none⟩) "1" = "0.000400" := by
  have main : ∀ (lt rt : Token) (s : String) (q : ℚ),
      s ≠ "" → matchesDecimalPattern s = true →
      parseFloatAccepted s = JSNum.num q → rt.price ≠ 0 →
      deriveRightAmount (some lt) (some rt) s =
        ratToFixed6 (q * lt.price / rt.price) := by
    intro lt rt s q hs _ hq hrt
    simp only [deriveRightAmount]
    rw [if_pos hs, hq]
    have hmul : JSNum.mul (JSNum.num q) (JSNum.num lt.price) =
        JSNum.num (q * lt.price) := rfl
    rw [hmul]
    have hdiv : JSNum.div (JSNum.num (q * lt.price)) (JSNum.num rt.price) =
        JSNum.num (q * lt.price / rt.price) := by
      simp [JSNum.div, hrt]
    rw [hdiv]
    rfl
  refine ⟨main, ?_⟩
  rw [main ⟨"USDC", "USD Coin", 1, "💵", "1", none⟩
    ⟨"ETH", "Ethereum", 2500, "Ξ", "8453", none⟩ "1" 1
    (by decide) (by decide) parseFloat_one (by norm_num)]
  show ratToFixed6 ((1 : ℚ) * 1 / 2500) = "0.000400"
  rw [ratToFixed6, if_neg (by norm_num)]
  rw [ratToFixed6Nonneg]
  rw [show ((1 : ℚ) * 1 / 2500).num = 1 by norm_num,
    show ((1 : ℚ) * 1 / 2500).den = 2500 by norm_num]
  decide

/-- Witness for C4 at the USDC-to-ETH example. -/
theorem conversion_linear_rate_witness :
    ("1" ≠ "") ∧ matchesDecimalPattern "1" = true ∧
    parseFloatAccepted "1" = JSNum.num 1 ∧
    ((⟨"ETH", "Ethereum", 2500, "Ξ", "8453", none⟩ : Token).price ≠ 0) ∧
    deriveRightAmount (some ⟨"USDC", "USD Coin", 1, "💵", "1", none⟩)
      (some ⟨"ETH", "Ethereum", 2500, "Ξ", "8453", none⟩) "1" =
      ratToFixed6 ((1 : ℚ) * (⟨"USDC", "USD Coin", 1, "💵", "1", none⟩ : Token).price /
        (⟨"ETH", "Ethereum", 2500, "Ξ", "8453", none⟩ : Token).price) :=
  ⟨by decide, by decide, parseFloat_one, by norm_num,
    conversion_linear_rate.1 ⟨"USDC", "USD Coin", 1, "💵", "1", none⟩
      ⟨"ETH", "Ethereum", 2500, "Ξ", "8453", none⟩ "1" 1
      (by decide) (by decide) parseFloat_one (by norm_num)⟩

/-- Counterexample to C5 as stated: with left price 1, right price 0 and
amount "1" the conversion quotient is infinite (not a finite number),
yet the displayed right amount is "Infinity", not "0" — the code's
`isNaN` guard does not catch the infinities. -/
theorem conversion_nonfinite_counterexample :
    JSNum.div (JSNum.mul (parseFloatAccepted "1")
      (JSNum.num (⟨"USDC", "USD Coin", 1, "💵", "1", none⟩ : Token).price))
      (JSNum.num (⟨"ETH", "Ethereum", 0, "Ξ", "8453", none⟩ : Token).price) = JSNum.inf ∧
    deriveRightAmount (some ⟨"USDC", "USD Coin", 1, "💵", "1", none⟩)
      (some ⟨"ETH", "Ethereum", 0, "Ξ", "8453", none⟩) "1" = "Infinity" ∧
    deriveRightAmount (some ⟨"USDC", "USD Coin", 1, "💵", "1", none⟩)
      (some ⟨"ETH", "Ethereum", 0, "Ξ", "8453", none⟩) "1" ≠ "0" := by
  have hinf : JSNum.div (JSNum.mul (parseFloatAccepted "1")
      (JSNum.num (⟨"USDC", "USD Coin", 1, "💵", "1", none⟩ : Token).price))
      (JSNum.num (⟨"ETH", "Ethereum", 0, "Ξ", "8453", none⟩ : Token).price) = JSNum.inf := by
    rw [parseFloat_one]
    norm_num [JSNum.mul, JSNum.div]
  refine ⟨hinf, ?_, ?_⟩
  · simp only [deriveRightAmount]
    rw [if_pos (show ("1" : String) ≠ "" by decide), hinf]
    rfl
  · simp only [deriveRightAmount]
    rw [if_pos (show ("1" : String) ≠ "" by decide), hinf]
    decide

/-- C5 as amended: with both tokens selected and a non-empty amount,
a `NaN` conversion quotient (for instance a 0/0 from zero prices)
displays as "0", but an infinite quotient (nonzero dividend over a zero
price) displays as "Infinity". -/
theorem conversion_nonfinite_display (lt rt : Token) (s : String) (hs : s ≠ "") :
    ((JSNum.div (JSNum.mul (parseFloatAccepted s) (JSNum.num lt.price))
        (JSNum.num rt.price)).isNaN = true →
      deriveRightAmount (some lt) (some rt) s = "0") ∧
    (JSNum.div (JSNum.mul (parseFloatAccepted s) (JSNum.num lt.price))
        (JSNum.num rt.price) = JSNum.inf →
      deriveRightAmount (some lt) (some rt) s = "Infinity") := by
  constructor
  · intro h
    simp only [deriveRightAmount]
    rw [if_pos hs, if_pos h]
  · intro h
    simp only [deriveRightAmount]
    rw [if_pos hs, h]
    rfl

/-- Witness for the amended C5: the unparsable amount "." yields a `NaN`
quotient displayed as "0", and amount "1" against a zero right price
yields an infinite quotient displayed as "Infinity". -/
theorem conversion_nonfinite_display_witness :
    ("." ≠ "") ∧
    (JSNum.div (JSNum.mul (parseFloatAccepted ".")
      (JSNum.num (⟨"USDC", "USD Coin", 1, "💵", "1", none⟩ : Token).price))
      (JSNum.num (⟨"ETH", "Ethereum", 2500, "Ξ", "8453", none⟩ : Token).price)).isNaN = true ∧
    deriveRightAmount (some ⟨"USDC", "USD Coin", 1, "💵", "1", none⟩)
      (some ⟨"ETH", "Ethereum", 2500, "Ξ", "8453", none⟩) "." = "0" ∧
    ("1" ≠ "") ∧
    JSNum.div (JSNum.mul (parseFloatAccepted "1")
      (JSNum.num (⟨"USDC", "USD Coin", 1, "💵", "1", none⟩ : Token).price))
      (JSNum.num (⟨"ETH", "Ethereum", 0, "Ξ", "8453", none⟩ : Token).price) = JSNum.inf ∧
    deriveRightAmount (some ⟨"USDC", "USD Coin", 1, "💵", "1", none⟩)
      (some ⟨"ETH", "Ethereum", 0, "Ξ", "8453", none⟩) "1" = "Infinity" := by
  have hnan : (JSNum.div (JSNum.mul (parseFloatAccepted ".")
      (JSNum.num (⟨"USDC", "USD Coin", 1, "💵", "1", none⟩ : Token).price))
      (JSNum.num (⟨"ETH", "Ethereum", 2500, "Ξ", "8453", none⟩ : Token).price)).isNaN = true := by
    decide
  have hinf : JSNum.div (JSNum.mul (parseFloatAccepted "1")
      (JSNum.num (⟨"USDC", "USD Coin", 1, "💵", "1", none⟩ : Token).price))
      (JSNum.num (⟨"ETH", "Ethereum", 0, "Ξ", "8453", none⟩ : Token).price) = JSNum.inf := by
    rw [parseFloat_one]
    norm_num [JSNum.mul, JSNum.div]
  exact ⟨by decide, hnan,
    (conversion_nonfinite_display ⟨"USDC", "USD Coin", 1, "💵", "1", none⟩
      ⟨"ETH", "Ethereum", 2500, "Ξ", "8453", none⟩ "." (by decide)).1 hnan,
    by decide, hinf,
    (conversion_nonfinite_display ⟨"USDC", "USD Coin", 1, "💵", "1", none⟩
      ⟨"ETH", "Ethereum", 0, "Ξ", "8453", none⟩ "1" (by decide)).2 hinf⟩

end CryptoSwap
